import Mathlib

/-!
Verification of the force-match radial graph visualization core:
entity/edge extraction from RDF triples, the grouping resolver, the
radial layout engine, the edge-curve generator, and the interaction
state machine, shallowly embedded from the source.

Angles are represented exactly as pairs `(a, b) : ℚ × ℚ` denoting the
real number `a·π + b`, so the layout arithmetic (spans, gaps, steps) is
computable and exact; real-valued positions are obtained by projecting
through `Angle.toReal`.
-/

/-- One RDF triple (n3 quad with default graph), as consumed by the parser. -/
structure Quad where
  subject : String
  predicate : String
  object : String
  deriving Repr, DecidableEq

/-- The attribute record built by `parseCharactersFromTTL` for one character. -/
structure Character where
  id : String
  name : String := ""
  type : String := ""
  species : String := ""
  gender : String := ""
  homeworld : String := ""
  height : String := ""
  mass : String := ""
  hairColor : String := ""
  skinColor : String := ""
  eyeColor : String := ""
  birthYear : String := ""
  films : List String := []
  deriving Repr, DecidableEq

/-- A directed edge `{source, target}` produced by `parseConnectionsFromTTL`. -/
structure Conn where
  source : String
  target : String
  deriving Repr, DecidableEq

def rdfTypePred : String := "http://www.w3.org/1999/02/22-rdf-syntax-ns#type"

def characterTypeObj : String := "https://swapi.co/vocabulary/Character"

def connectedToPred : String := "https://swapi.co/vocabulary/connectedTo"

/-- The freshly registered character record (all fields empty / default). -/
def defaultCharacter (id : String) : Character := { id := id }

/-- The `switch (predicate)` of `parseCharactersFromTTL`: write the mapped
attribute field of an already-registered character, appending to `films`
with duplicate suppression. Unrecognized predicates leave the record
unchanged. -/
def applyPredicate (c : Character) (predicate object : String) : Character :=
  if predicate = "http://www.w3.org/2000/01/rdf-schema#label" then
    { c with name := object }
  else if predicate = "http://www.ontotext.com/business-object/type" then
    { c with type := object, species := object }
  else if predicate = "https://swapi.co/vocabulary/gender" then
    { c with gender := object }
  else if predicate = "https://swapi.co/vocabulary/homeworld" then
    { c with homeworld := object }
  else if predicate = "https://swapi.co/vocabulary/height" then
    { c with height := object }
  else if predicate = "https://swapi.co/vocabulary/mass" then
    { c with mass := object }
  else if predicate = "https://swapi.co/vocabulary/hairColor" then
    { c with hairColor := object }
  else if predicate = "https://swapi.co/vocabulary/skinColor" then
    { c with skinColor := object }
  else if predicate = "https://swapi.co/vocabulary/eyeColor" then
    { c with eyeColor := object }
  else if predicate = "https://swapi.co/vocabulary/birthYear" then
    { c with birthYear := object }
  else if predicate = "https://swapi.co/vocabulary/film" then
    if c.films.contains object then c else { c with films := c.films ++ [object] }
  else c

/-- `Map.set` on an insertion-ordered association list: update in place if
the key exists, append otherwise (the JS `Map` semantics). -/
def mapSet : List (String × Character) → String → Character → List (String × Character)
  | [], k, v => [(k, v)]
  | (k0, v0) :: rest, k, v =>
    if k0 = k then (k, v) :: rest else (k0, v0) :: mapSet rest k v

/-- One iteration of the `quads.forEach` loop of `parseCharactersFromTTL`:
register the subject on a type assertion (idempotently), then apply the
attribute switch only when the subject is already registered. -/
def processQuad (characters : List (String × Character)) (q : Quad) :
    List (String × Character) :=
  let characters :=
    if q.predicate = rdfTypePred ∧ q.object = characterTypeObj then
      if (characters.lookup q.subject).isSome then characters
      else characters ++ [(q.subject, defaultCharacter q.subject)]
    else characters
  match characters.lookup q.subject with
  | some c => mapSet characters q.subject (applyPredicate c q.predicate q.object)
  | none => characters

/-- `parseCharactersFromTTL`: fold the quad stream through `processQuad`
and return the registered characters in insertion order. -/
def parseCharactersFromTTL (quads : List Quad) : List Character :=
  (quads.foldl processQuad []).map Prod.snd

/-- `parseConnectionsFromTTL`: every `connectedTo` triple pushes one edge,
in source order. -/
def parseConnectionsFromTTL (quads : List Quad) : List Conn :=
  quads.foldl
    (fun acc q =>
      if q.predicate = connectedToPred then acc ++ [⟨q.subject, q.object⟩] else acc)
    []

/-! ## Edge curve generator (`Connection.jsx`) -/

/-- The design-default affinity factor of `Connection.jsx`. -/
def AFFINITY_FACTOR : ℝ := 0.85

/-- `control1 = start + (center - start)·affinity`, componentwise. -/
def connectionControl1 (startPos : ℝ × ℝ) (centerX centerY affinity : ℝ) : ℝ × ℝ :=
  (startPos.1 + (centerX - startPos.1) * affinity,
   startPos.2 + (centerY - startPos.2) * affinity)

/-- `control2 = end + (center - end)·affinity`, componentwise. -/
def connectionControl2 (endPos : ℝ × ℝ) (centerX centerY affinity : ℝ) : ℝ × ℝ :=
  (endPos.1 + (centerX - endPos.1) * affinity,
   endPos.2 + (centerY - endPos.2) * affinity)

/-- The `(dx, dy)` the arrow orientation is computed from: `endPos - control2`. -/
def arrowDelta (endPos : ℝ × ℝ) (centerX centerY affinity : ℝ) : ℝ × ℝ :=
  (endPos.1 - (connectionControl2 endPos centerX centerY affinity).1,
   endPos.2 - (connectionControl2 endPos centerX centerY affinity).2)

/-! ## Interaction state (Dashboard) -/

/-- The grouping key selected in the settings panel. -/
inductive GroupBy where
  | none
  | species
  | gender
  | films
  deriving Repr, DecidableEq

/-! ## Grouping resolver and radial layout (Dashboard `useMemo`)

An angle is represented exactly as `(a, b) : ℚ × ℚ` meaning `a·π + b`. -/

/-- Exact angle representation: `(a, b)` denotes the real `a·π + b`. -/
abbrev Angle := ℚ × ℚ

/-- The real number denoted by an `Angle`. -/
noncomputable def Angle.toReal (a : Angle) : ℝ := a.1 * Real.pi + a.2

/-- Componentwise angle addition. -/
def Angle.add (a b : Angle) : Angle := (a.1 + b.1, a.2 + b.2)

/-- Componentwise angle subtraction. -/
def Angle.sub (a b : Angle) : Angle := (a.1 - b.1, a.2 - b.2)

/-- Scaling of an angle by a rational. -/
def Angle.smul (q : ℚ) (a : Angle) : Angle := (q * a.1, q * a.2)

/-- The bucket key of one character under the active grouping, from the
`groups` reduce of the Dashboard: a character lacking the resolved attribute
falls into the reserved key `"Unknown"`. (`GroupBy.none` never reaches this
code path; the reduce's fallthrough yields `"Unknown"`.) -/
def groupKeyOf : GroupBy → Character → String
  | GroupBy.species, c => if c.species ≠ "" then c.species else "Unknown"
  | GroupBy.gender, c => if c.gender ≠ "" then c.gender else "Unknown"
  | GroupBy.films, c =>
      if c.films ≠ [] then toString c.films.length ++ " films" else "Unknown"
  | GroupBy.none, _ => "Unknown"

/-- `if (!acc[key]) acc[key] = []; acc[key].push(char)` on an insertion-ordered
association list: append to the existing bucket, or create a new bucket at the
end. -/
def addToGroup : List (String × List Character) → String → Character →
    List (String × List Character)
  | [], key, c => [(key, [c])]
  | (k, l) :: rest, key, c =>
    if k = key then (k, l ++ [c]) :: rest else (k, l) :: addToGroup rest key c

/-- The `groups` reduce: partition the characters into buckets in insertion
order of first appearance of each key. -/
def groupsOf (gb : GroupBy) (chars : List Character) :
    List (String × List Character) :=
  chars.foldl (fun acc c => addToGroup acc (groupKeyOf gb c) c) []

/-- `Object.keys(groups).sort()`: the bucket keys in ascending string order. -/
def groupKeysOf (gb : GroupBy) (chars : List Character) : List String :=
  List.insertionSort (fun a b => a ≤ b) ((groupsOf gb chars).map Prod.fst)

/-- `gapAngle = 0.05`, the small gap between consecutive groups. -/
def gapAngle : ℚ := 1 / 20

/-- The angular arc occupied by one group (`groupInfoArray` entry; the center
and radius of the source record are global to the layout and handled at the
position level). -/
structure GroupSpan where
  name : String
  startAngle : Angle
  endAngle : Angle
  deriving Repr, DecidableEq

/-- The `groupKeys.forEach` loop of the grouped layout: for each key in order,
the bucket receives span `(groupSize / totalCharacters) · usableAngle`, its
members sit at offsets `(index + 0.5) · (span / groupSize)` from the running
angle, and the running angle advances by the span plus `gapAngle`. -/
def layoutGroupsAux (groups : List (String × List Character)) (total : ℚ)
    (usableAngle : Angle) :
    List String → Angle → List (String × Angle) × List GroupSpan
  | [], _ => ([], [])
  | key :: rest, currentAngle =>
    let members := (groups.lookup key).getD []
    let groupSize : ℚ := members.length
    let groupAngleSpan := Angle.smul (groupSize / total) usableAngle
    let angleStep := Angle.smul (1 / groupSize) groupAngleSpan
    let memberAngles := members.enum.map
      (fun p => (p.2.id, Angle.add currentAngle (Angle.smul ((p.1 : ℚ) + 1 / 2) angleStep)))
    let next := layoutGroupsAux groups total usableAngle rest
      (Angle.add currentAngle (Angle.add groupAngleSpan (0, gapAngle)))
    (memberAngles ++ next.1,
     ⟨key, currentAngle, Angle.add currentAngle groupAngleSpan⟩ :: next.2)

/-- The grouped branch of the layout `useMemo`: usable angle is `2π` minus one
`gapAngle` per group, and the walk starts at `-π/2`. Returns the per-character
angles and the `GroupSpan` metadata. -/
def groupedLayout (gb : GroupBy) (chars : List Character) :
    List (String × Angle) × List GroupSpan :=
  let keys := groupKeysOf gb chars
  let totalGapAngle : ℚ := gapAngle * keys.length
  let usableAngle : Angle := (2, -totalGapAngle)
  layoutGroupsAux (groupsOf gb chars) (chars.length : ℚ) usableAngle keys (-(1 / 2 : ℚ), 0)

/-- The per-character angle of the layout: the ungrouped branch places node
`i` at `i · (2π / N) − π/2`; any other grouping uses the grouped branch. -/
def anglesOf (gb : GroupBy) (chars : List Character) : List (String × Angle) :=
  match gb with
  | GroupBy.none =>
      chars.enum.map
        (fun p => (p.2.id, ((p.1 : ℚ) * (2 / (chars.length : ℚ)) - 1 / 2, 0)))
  | _ => (groupedLayout gb chars).1

/-- One node position: `center + radius · (cos θ, sin θ)` with
`radius = min(width, height) × 0.35`. -/
noncomputable def posOf (width height : ℝ) (a : Angle) : ℝ × ℝ :=
  (width / 2 + (min width height * 0.35) * Real.cos (Angle.toReal a),
   height / 2 + (min width height * 0.35) * Real.sin (Angle.toReal a))

/-- The `positions` mapping of the layout `useMemo`, as an association list. -/
noncomputable def positionsOf (gb : GroupBy) (chars : List Character)
    (width height : ℝ) : List (String × (ℝ × ℝ)) :=
  (anglesOf gb chars).map (fun p => (p.1, posOf width height p.2))

/-- The render pass over `connections`: look up both endpoint positions and
drop the edge (render `null`) when either lookup fails; otherwise hand the
endpoint pair to the `Connection` component. Polymorphic in the position
payload, which the guard never inspects. -/
def renderConnections {P : Type} (positions : List (String × P))
    (conns : List Conn) : List (P × P) :=
  conns.filterMap
    (fun c =>
      match positions.lookup c.source, positions.lookup c.target with
      | some startPos, some endPos => some (startPos, endPos)
      | _, _ => Option.none)

/-- The Dashboard component state relevant to selection and panels. -/
structure DashState where
  selectedCharacter : Option Character := Option.none
  hoveredCharacterId : Option String := Option.none
  isSidebarOpen : Bool := false
  isSettingsOpen : Bool := false
  groupBy : GroupBy := GroupBy.none
  deriving Repr, DecidableEq

/-- `handleNodeClick`: store the clicked character and open the sidebar. -/
def handleNodeClick (s : DashState) (c : Character) : DashState :=
  { s with selectedCharacter := some c, isSidebarOpen := true }

/-- `handleSidebarClose`: close the sidebar (nothing else is touched). -/
def handleSidebarClose (s : DashState) : DashState :=
  { s with isSidebarOpen := false }

/-- The per-edge highlight predicate of the Dashboard render pass:
`hoveredCharacterId === conn.source || hoveredCharacterId === conn.target`. -/
def isHighlighted (hoveredCharacterId : Option String) (conn : Conn) : Bool :=
  hoveredCharacterId == some conn.source || hoveredCharacterId == some conn.target

/-- Total membership count of a bucket list. -/
def sumSizes (gs : List (String × List Character)) : ℕ :=
  (gs.map (fun g => g.2.length)).sum

/-- A character lacks the attribute resolved by the active grouping:
empty `species`, empty `gender`, or an empty film list. -/
def missingAttr : GroupBy → Character → Prop
  | GroupBy.species, c => c.species = ""
  | GroupBy.gender, c => c.gender = ""
  | GroupBy.films, c => c.films = []
  | GroupBy.none, _ => True

/-- Concrete characters realizing the spec scenario of four entities in two
buckets of sizes 3 and 1 (species `"A"` three times, one missing species). -/
def cA : Character := { defaultCharacter "A" with species := "A" }

def cB : Character := { defaultCharacter "B" with species := "A" }

def cC : Character := { defaultCharacter "C" with species := "A" }

def cD : Character := { defaultCharacter "D" with species := "" }

/-! ## Parser lemmas -/

/-- The foldl of `parseConnectionsFromTTL` is the filterMap of matching quads. -/
theorem parseConnections_foldl_eq (quads : List Quad) (acc : List Conn) :
    quads.foldl
      (fun acc q =>
        if q.predicate = connectedToPred then acc ++ [⟨q.subject, q.object⟩] else acc)
      acc
    = acc ++ quads.filterMap
        (fun q =>
          if q.predicate = connectedToPred then some ⟨q.subject, q.object⟩ else none) := by
  induction quads generalizing acc with
  | nil => simp
  | cons q rest ih =>
    by_cases h : q.predicate = connectedToPred <;>
      simp [h, ih, List.append_assoc]

/-! ## Association-list lemmas for the grouping resolver -/

/-- Looking up after `addToGroup`: the target bucket gains `c` at its end
(created if absent); every other bucket is untouched. -/
theorem lookup_addToGroup (acc : List (String × List Character)) (k key : String)
    (c : Character) :
    (addToGroup acc key c).lookup k
      = if k = key then some (((acc.lookup key).getD []) ++ [c]) else acc.lookup k := by
  induction acc with
  | nil =>
    by_cases h : k = key
    · simp [addToGroup, List.lookup, h]
    · have hb : (k == key) = false := beq_eq_false_iff_ne.mpr h
      simp [addToGroup, List.lookup, h, hb]
  | cons p rest ih =>
    obtain ⟨k0, l0⟩ := p
    by_cases h0 : k0 = key
    · subst h0
      by_cases h : k = k0
      · simp [addToGroup, List.lookup, h]
      · have hb : (k == k0) = false := beq_eq_false_iff_ne.mpr h
        simp [addToGroup, List.lookup, h, hb]
    · have hb0 : (key == k0) = false := beq_eq_false_iff_ne.mpr (Ne.symm h0)
      by_cases h : k = key
      · subst h
        have hb : (k == k0) = false := beq_eq_false_iff_ne.mpr (Ne.symm h0)
        simp [addToGroup, List.lookup, h0, hb, ih]
      · by_cases hk0 : k = k0
        · subst hk0
          simp [addToGroup, List.lookup, h0, h, ih]
        · have hb : (k == k0) = false := beq_eq_false_iff_ne.mpr hk0
          simp [addToGroup, List.lookup, h0, h, hb, ih]

/-- The key sequence after `addToGroup`: unchanged when the bucket already
exists, extended by the new key at the end otherwise. -/
theorem keys_addToGroup (acc : List (String × List Character)) (key : String)
    (c : Character) :
    (addToGroup acc key c).map Prod.fst
      = if (acc.lookup key).isSome then acc.map Prod.fst
        else acc.map Prod.fst ++ [key] := by
  induction acc with
  | nil => simp [addToGroup, List.lookup]
  | cons p rest ih =>
    obtain ⟨k0, l0⟩ := p
    by_cases h0 : k0 = key
    · subst h0
      simp [addToGroup, List.lookup]
    · have hb0 : (key == k0) = false := beq_eq_false_iff_ne.mpr (Ne.symm h0)
      simp [addToGroup, List.lookup, h0, hb0, ih]
      by_cases hs : (rest.lookup key).isSome <;> simp [hs, hb0]

/-- A key is absent from the lookup iff it is absent from the key sequence. -/
theorem lookup_eq_none_iff_keys (acc : List (String × List Character)) (k : String) :
    acc.lookup k = Option.none ↔ k ∉ List.map Prod.fst acc := by
  induction acc with
  | nil => simp [List.lookup]
  | cons p rest ih =>
    obtain ⟨k0, l0⟩ := p
    by_cases h : k = k0
    · subst h
      simp [List.lookup]
    · have hb : (k == k0) = false := beq_eq_false_iff_ne.mpr h
      simp [List.lookup, hb, ih, h]

/-- `addToGroup` adds exactly one membership. -/
theorem sumSizes_addToGroup (acc : List (String × List Character)) (key : String)
    (c : Character) :
    sumSizes (addToGroup acc key c) = sumSizes acc + 1 := by
  induction acc with
  | nil => simp [addToGroup, sumSizes]
  | cons p rest ih =>
    obtain ⟨k0, l0⟩ := p
    by_cases h0 : k0 = key <;>
      simp [addToGroup, h0, sumSizes] at ih ⊢ <;> omega

/-- Characterization of the `groups` reduce: the bucket of key `k` collects, in
input order, exactly the characters whose group key is `k` (appended to
whatever the initial accumulator already held at `k`). -/
theorem lookup_foldl_groups (gb : GroupBy) (chars : List Character) :
    ∀ (acc : List (String × List Character)) (k : String),
      ((chars.foldl (fun acc c => addToGroup acc (groupKeyOf gb c) c) acc).lookup k).getD []
        = ((acc.lookup k).getD []) ++ chars.filter (fun c => groupKeyOf gb c == k) := by
  induction chars with
  | nil => simp
  | cons c0 rest ih =>
    intro acc k
    by_cases h : k = groupKeyOf gb c0
    · simp only [List.foldl_cons, ih, lookup_addToGroup, h, if_pos rfl]
      simp [List.filter_cons, h, beq_iff_eq]
    · simp only [List.foldl_cons, ih, lookup_addToGroup, h, if_neg h]
      have : (groupKeyOf gb c0 == k) = false := by
        simp [beq_iff_eq]; exact fun hh => h hh.symm
      simp [List.filter_cons, this]

/-- The bucket of key `k` is the stable filter of the input by group key. -/
theorem lookup_groupsOf (gb : GroupBy) (chars : List Character) (k : String) :
    ((groupsOf gb chars).lookup k).getD []
      = chars.filter (fun c => groupKeyOf gb c == k) := by
  simpa [List.lookup] using lookup_foldl_groups gb chars [] k

/-- The bucket keys of the `groups` reduce are distinct. -/
theorem keys_groupsOf_nodup (gb : GroupBy) (chars : List Character) :
    ((groupsOf gb chars).map Prod.fst).Nodup := by
  have main : ∀ (acc : List (String × List Character)),
      (acc.map Prod.fst).Nodup →
      (((chars.foldl (fun acc c => addToGroup acc (groupKeyOf gb c) c) acc)).map
          Prod.fst).Nodup := by
    induction chars with
    | nil => intro acc h; simpa using h
    | cons c0 rest ih =>
      intro acc h
      refine ih _ ?_
      rw [keys_addToGroup]
      by_cases hs : (acc.lookup (groupKeyOf gb c0)).isSome
      · simpa [hs] using h
      · have hnone : acc.lookup (groupKeyOf gb c0) = Option.none := by
          cases hl : acc.lookup (groupKeyOf gb c0) <;> simp [hl] at hs ⊢
        have hnm := (lookup_eq_none_iff_keys acc (groupKeyOf gb c0)).mp hnone
        simp [hs, List.nodup_append, h, hnm]
  simpa [groupsOf] using main [] (by simp)

/-- The buckets of the `groups` reduce partition the input: sizes sum to the
input length. -/
theorem sumSizes_groupsOf (gb : GroupBy) (chars : List Character) :
    sumSizes (groupsOf gb chars) = chars.length := by
  have main : ∀ (acc : List (String × List Character)),
      sumSizes (chars.foldl (fun acc c => addToGroup acc (groupKeyOf gb c) c) acc)
        = sumSizes acc + chars.length := by
    induction chars with
    | nil => intro acc; simp
    | cons c0 rest ih =>
      intro acc
      simp [List.foldl_cons, ih, sumSizes_addToGroup]
      omega
  simpa [groupsOf, sumSizes] using main []

/-- Summing bucket sizes over the distinct key sequence recovers the total
membership count. -/
theorem sum_lookup_sizes (gs : List (String × List Character))
    (h : (gs.map Prod.fst).Nodup) :
    ((gs.map Prod.fst).map (fun k => ((gs.lookup k).getD []).length)).sum
      = sumSizes gs := by
  induction gs with
  | nil => simp [sumSizes]
  | cons p rest ih =>
    obtain ⟨k0, l0⟩ := p
    rw [List.map_cons] at h
    have h0 : k0 ∉ rest.map Prod.fst := (List.nodup_cons.mp h).1
    have hrest : (rest.map Prod.fst).Nodup := (List.nodup_cons.mp h).2
    have hself : List.lookup k0 ((k0, l0) :: rest) = some l0 := by
      simp [List.lookup]
    have hcongr :
        (rest.map Prod.fst).map
            (fun k => ((List.lookup k ((k0, l0) :: rest)).getD []).length)
          = (rest.map Prod.fst).map (fun k => ((rest.lookup k).getD []).length) := by
      refine List.map_congr_left ?_
      intro k hk
      have hne : (k == k0) = false := by
        refine beq_eq_false_iff_ne.mpr ?_
        intro hkk
        exact h0 (hkk ▸ hk)
      simp [List.lookup, hne]
    rw [List.map_cons, List.map_cons, List.sum_cons, hself, hcongr, ih hrest]
    simp [sumSizes]

/-! ## Layout lemmas -/

/-- Subtracting the start back off an accumulated angle leaves the increment. -/
theorem angle_sub_add_cancel (a b : Angle) : Angle.sub (Angle.add a b) a = b := by
  simp [Angle.sub, Angle.add]

/-- `toReal` of a scaled angle. -/
theorem angle_toReal_smul (q : ℚ) (a : Angle) :
    Angle.toReal (Angle.smul q a) = (q : ℝ) * Angle.toReal a := by
  simp [Angle.smul, Angle.toReal]
  ring

/-- The spans recorded in the `GroupSpan` metadata are exactly
`(bucketSize / total) · usableAngle`, bucket by bucket. -/
theorem spans_layoutGroupsAux (groups : List (String × List Character)) (total : ℚ)
    (usableAngle : Angle) :
    ∀ (keys : List String) (cur : Angle),
      (layoutGroupsAux groups total usableAngle keys cur).2.map
          (fun g => Angle.sub g.endAngle g.startAngle)
        = keys.map
            (fun k =>
              Angle.smul ((((groups.lookup k).getD []).length : ℚ) / total) usableAngle) := by
  intro keys
  induction keys with
  | nil => intro cur; simp [layoutGroupsAux]
  | cons key rest ih =>
    intro cur
    simp only [layoutGroupsAux, List.map_cons]
    rw [angle_sub_add_cancel, ih]

/-- Sum of `toReal` over a list of scalings of one angle. -/
theorem sum_smul_toReal (keys : List String) (f : String → ℚ) (u : Angle) :
    ((keys.map (fun k => Angle.smul (f k) u)).map Angle.toReal).sum
      = (((keys.map f).sum : ℚ) : ℝ) * Angle.toReal u := by
  induction keys with
  | nil => simp
  | cons k rest ih =>
    simp only [List.map_cons, List.sum_cons, ih, angle_toReal_smul]
    push_cast
    ring

/-! ## Claims C3, C8, C9 -/

/-- C3: the edge curve generator computes `control1 = start + (center − start)·affinity`
and `control2 = end + (center − end)·affinity`; at `affinity = 0` both control points
equal the respective endpoints, at `affinity = 1` both equal the center, and the arrow
tangent at the end equals `endPos − control2`. -/
theorem connection_curve_controls (s e : ℝ × ℝ) (cx cy a : ℝ) :
    connectionControl1 s cx cy a = (s.1 + (cx - s.1) * a, s.2 + (cy - s.2) * a) ∧
    connectionControl2 e cx cy a = (e.1 + (cx - e.1) * a, e.2 + (cy - e.2) * a) ∧
    connectionControl1 s cx cy 0 = s ∧
    connectionControl2 e cx cy 0 = e ∧
    connectionControl1 s cx cy 1 = (cx, cy) ∧
    connectionControl2 e cx cy 1 = (cx, cy) ∧
    arrowDelta e cx cy a =
      (e.1 - (connectionControl2 e cx cy a).1, e.2 - (connectionControl2 e cx cy a).2) := by
  refine ⟨rfl, rfl, ?_, ?_, ?_, ?_, rfl⟩ <;>
    simp [connectionControl1, connectionControl2]

/-- C8: the hover highlight is symmetric: edge `(A, B)` is highlighted when the
hovered id is `A` iff it is highlighted when the hovered id is `B`. -/
theorem hover_highlight_symm (A B : String) :
    isHighlighted (some A) ⟨A, B⟩ = isHighlighted (some B) ⟨A, B⟩ := by
  simp [isHighlighted]

/-- C9 counterexample: after `select(c)` followed by `closeDetail`, the code
keeps `selectedId` set (it is not cleared), contradicting the claim that
`closeDetail` clears both the panel flag and `selectedId`. -/
theorem sidebar_close_keeps_selection_cex :
    (handleSidebarClose (handleNodeClick {} (defaultCharacter "luke"))).selectedCharacter
      = some (defaultCharacter "luke") := by
  rfl

/-- C9 (amended): `select(id)` sets `selectedId = id` and opens the detail
panel; `closeDetail` clears only the detail-panel-open flag and leaves
`selectedId` unchanged. -/
theorem select_and_close_detail (s : DashState) (c : Character) :
    (handleNodeClick s c).selectedCharacter = some c ∧
    (handleNodeClick s c).isSidebarOpen = true ∧
    (handleSidebarClose s).isSidebarOpen = false ∧
    (handleSidebarClose s).selectedCharacter = s.selectedCharacter := by
  exact ⟨rfl, rfl, rfl, rfl⟩

/-- C4 counterexample: a `connectedTo` triple whose subject equals its object
is not rejected; the extractor emits the self-loop edge, so it is false that
every produced edge satisfies `source ≠ target`. -/
theorem self_loop_edge_cex :
    parseConnectionsFromTTL [⟨"a", connectedToPred, "a"⟩] = [⟨"a", "a"⟩] ∧
    ¬ (∀ quads : List Quad, ∀ e ∈ parseConnectionsFromTTL quads, e.source ≠ e.target) := by
  constructor
  · rfl
  · intro h
    exact h [⟨"a", connectedToPred, "a"⟩] ⟨"a", "a"⟩ (by simp [parseConnectionsFromTTL]) rfl

/-- C4 (amended): the edge extractor performs no self-loop filtering: it emits
exactly one edge `⟨subject, object⟩` per `connectedTo` triple in source order,
so a triple with `subject = object` yields an edge with `source = target`. -/
theorem parseConnections_no_filter (quads : List Quad) :
    parseConnectionsFromTTL quads
      = quads.filterMap
          (fun q =>
            if q.predicate = connectedToPred then some ⟨q.subject, q.object⟩ else none) := by
  simpa using parseConnections_foldl_eq quads []

/-- C5 counterexample: swapping a subject's type-assertion triple with one of
its attribute triples changes the extractor's result: when the label triple
precedes the type triple, the label is dropped. -/
theorem parse_order_cex :
    parseCharactersFromTTL
        [⟨"s", "http://www.w3.org/2000/01/rdf-schema#label", "Luke"⟩,
         ⟨"s", rdfTypePred, characterTypeObj⟩]
      ≠ parseCharactersFromTTL
        [⟨"s", rdfTypePred, characterTypeObj⟩,
         ⟨"s", "http://www.w3.org/2000/01/rdf-schema#label", "Luke"⟩] := by
  decide

/-- C5 (amended): the entity extractor is one-pass and order-sensitive: an
attribute triple that precedes its subject's type assertion is ignored (the
record keeps the default value), while the same attribute triple arriving
after the type assertion is recorded. -/
theorem parse_order_sensitive (s v : String) :
    parseCharactersFromTTL
        [⟨s, "http://www.w3.org/2000/01/rdf-schema#label", v⟩,
         ⟨s, rdfTypePred, characterTypeObj⟩]
      = [defaultCharacter s] ∧
    parseCharactersFromTTL
        [⟨s, rdfTypePred, characterTypeObj⟩,
         ⟨s, "http://www.w3.org/2000/01/rdf-schema#label", v⟩]
      = [{ defaultCharacter s with name := v }] := by
  constructor <;>
    simp [parseCharactersFromTTL, processQuad, applyPredicate, mapSet,
      defaultCharacter, rdfTypePred, characterTypeObj, List.lookup]

/-- C2: for an active grouping key (species/gender/films), the grouping
resolver (a) places every entity lacking the resolved attribute into the
bucket keyed `"Unknown"`, (b) emits the bucket keys in ascending
lexicographic order of the key string — a permutation of the reduce's
keys — and (c) every bucket is a stable partition class: its members form
a sublist of the input sequence, preserving relative input order. -/
theorem grouping_resolver_spec (gb : GroupBy) (chars : List Character)
    (hgb : gb ≠ GroupBy.none) :
    (∀ c ∈ chars, missingAttr gb c →
        c ∈ ((groupsOf gb chars).lookup "Unknown").getD []) ∧
    List.Sorted (fun a b : String => a ≤ b) (groupKeysOf gb chars) ∧
    List.Perm (groupKeysOf gb chars) ((groupsOf gb chars).map Prod.fst) ∧
    (∀ k : String, List.Sublist (((groupsOf gb chars).lookup k).getD []) chars) := by
  refine ⟨?_, ?_, ?_, ?_⟩
  · intro c hc hmiss
    rw [lookup_groupsOf]
    refine List.mem_filter.mpr ⟨hc, ?_⟩
    cases gb with
    | none => exact absurd rfl hgb
    | species =>
        simp only [missingAttr] at hmiss
        simp [groupKeyOf, hmiss]
    | gender =>
        simp only [missingAttr] at hmiss
        simp [groupKeyOf, hmiss]
    | films =>
        simp only [missingAttr] at hmiss
        simp [groupKeyOf, hmiss]
  · exact List.sorted_insertionSort _ _
  · exact List.perm_insertionSort _ _
  · intro k
    rw [lookup_groupsOf]
    exact List.filter_sublist _

/-- Witness for C2 at a concrete input: with species grouping over
`[cA, cD]`, the species-less character `cD` lands in the `"Unknown"` bucket. -/
theorem grouping_resolver_spec_witness :
    cD ∈ ((groupsOf GroupBy.species [cA, cD]).lookup "Unknown").getD [] :=
  (grouping_resolver_spec GroupBy.species [cA, cD] (by decide)).1 cD (by simp)
    (by simp [missingAttr, cD, defaultCharacter])

/-- Casting a sum of naturals mapped over a list into `ℚ`. -/
theorem list_sum_natCast (l : List String) (f : String → ℕ) :
    ((l.map (fun k => ((f k : ℕ) : ℚ))).sum) = (((l.map f).sum : ℕ) : ℚ) := by
  induction l with
  | nil => simp
  | cons k rest ih => simp [ih]

/-- C1: for every non-empty character list and active grouping, the bucket
angular spans recorded by the grouped layout — each equal to
`(bucketSize / totalNodes) · usableAngle` — plus one `gapAngle = 0.05` per
bucket, sum to exactly `2π`. -/
theorem grouped_span_sum (gb : GroupBy) (chars : List Character)
    (_hgb : gb ≠ GroupBy.none) (hne : chars ≠ []) :
    ((groupedLayout gb chars).2.map
        (fun g => Angle.toReal (Angle.sub g.endAngle g.startAngle))).sum
      + ((groupedLayout gb chars).2.length : ℝ) * 0.05 = 2 * Real.pi := by
  have hL : groupedLayout gb chars
      = layoutGroupsAux (groupsOf gb chars) (chars.length : ℚ)
          (2, -(gapAngle * (groupKeysOf gb chars).length))
          (groupKeysOf gb chars) (-(1 / 2 : ℚ), 0) := rfl
  have hspans := spans_layoutGroupsAux (groupsOf gb chars) (chars.length : ℚ)
    (2, -(gapAngle * (groupKeysOf gb chars).length)) (groupKeysOf gb chars)
    (-(1 / 2 : ℚ), 0)
  have hlen : (groupedLayout gb chars).2.length = (groupKeysOf gb chars).length := by
    have := congrArg List.length hspans
    simpa [hL] using this
  have hcomp : ((groupedLayout gb chars).2.map
        (fun g => Angle.toReal (Angle.sub g.endAngle g.startAngle)))
      = (((groupedLayout gb chars).2.map
          (fun g => Angle.sub g.endAngle g.startAngle)).map Angle.toReal) := by
    rw [List.map_map]
    rfl
  rw [hcomp, hL, hspans, sum_smul_toReal]
  have htot : ((chars.length : ℕ) : ℚ) ≠ 0 := by
    have : chars.length ≠ 0 := by
      simpa [List.length_eq_zero] using hne
    exact_mod_cast this
  have hsum : ((groupKeysOf gb chars).map
      (fun k =>
        ((((groupsOf gb chars).lookup k).getD []).length : ℚ)
          / ((chars.length : ℕ) : ℚ))).sum = 1 := by
    have hdiv : ((groupKeysOf gb chars).map
        (fun k =>
          ((((groupsOf gb chars).lookup k).getD []).length : ℚ)
            / ((chars.length : ℕ) : ℚ))).sum
        = ((groupKeysOf gb chars).map
            (fun k =>
              ((((groupsOf gb chars).lookup k).getD []).length : ℚ))).sum
          * ((chars.length : ℕ) : ℚ)⁻¹ := by
      simp only [div_eq_mul_inv]
      exact List.sum_map_mul_right _ _ _
    have hperm : List.Perm (groupKeysOf gb chars) ((groupsOf gb chars).map Prod.fst) :=
      List.perm_insertionSort _ _
    have hpermsum : ((groupKeysOf gb chars).map
        (fun k => ((((groupsOf gb chars).lookup k).getD []).length : ℚ))).sum
        = (((groupsOf gb chars).map Prod.fst).map
            (fun k => ((((groupsOf gb chars).lookup k).getD []).length : ℚ))).sum :=
      (hperm.map _).sum_eq
    have hnat : (((groupsOf gb chars).map Prod.fst).map
        (fun k => ((((groupsOf gb chars).lookup k).getD []).length : ℚ))).sum
        = ((chars.length : ℕ) : ℚ) := by
      rw [list_sum_natCast]
      rw [sum_lookup_sizes _ (keys_groupsOf_nodup gb chars)]
      rw [sumSizes_groupsOf]
    rw [hdiv, hpermsum, hnat, mul_inv_cancel₀ htot]
  rw [hsum, ← hL, hlen]
  simp only [Angle.toReal, gapAngle]
  push_cast
  ring_nf

/-- Witness for C1 at a concrete input: species grouping over the four
concrete characters (buckets of sizes 3 and 1). -/
theorem grouped_span_sum_witness :
    GroupBy.species ≠ GroupBy.none ∧ ([cA, cB, cC, cD] : List Character) ≠ [] ∧
    ((groupedLayout GroupBy.species [cA, cB, cC, cD]).2.map
        (fun g => Angle.toReal (Angle.sub g.endAngle g.startAngle))).sum
      + ((groupedLayout GroupBy.species [cA, cB, cC, cD]).2.length : ℝ) * 0.05
      = 2 * Real.pi :=
  ⟨by decide, by simp,
    grouped_span_sum GroupBy.species [cA, cB, cC, cD] (by decide) (by simp)⟩

/-- C6 counterexample: on four entities in buckets of sizes 3 and 1, the code
uses `usableAngle = 2π − 2·0.05` (one gap per bucket), so bucket1's actual
span `3/4 · (2π − 0.1) = (3/2)π − 3/40` differs from the claimed
`3/4 · (2π − 0.05)`. -/
theorem two_bucket_span_cex :
    (groupedLayout GroupBy.species [cA, cB, cC, cD]).2
      = [⟨"A", (-(1 / 2 : ℚ), (0 : ℚ)), ((1 : ℚ), -(3 / 40 : ℚ))⟩,
         ⟨"Unknown", ((1 : ℚ), -(1 / 40 : ℚ)), ((3 / 2 : ℚ), -(1 / 20 : ℚ))⟩] ∧
    Angle.toReal (Angle.sub ((1 : ℚ), -(3 / 40 : ℚ)) (-(1 / 2 : ℚ), (0 : ℚ)))
      ≠ (3 / 4) * (2 * Real.pi - 0.05) := by
  constructor
  · have h : (['A'] ≤ ['U', 'n', 'k', 'n', 'o', 'w', 'n']) := by decide
    simp [groupedLayout, groupKeysOf, groupsOf, addToGroup, groupKeyOf, cA, cB, cC, cD,
      defaultCharacter, List.insertionSort, List.orderedInsert, layoutGroupsAux,
      Angle.add, Angle.smul, gapAngle, List.lookup, h]
    norm_num
  · simp only [Angle.sub, Angle.toReal]
    intro hcontra
    push_cast at hcontra
    norm_num at hcontra
    linarith

/-- C6 (amended): with two buckets the code reserves two gaps, so on the
4-entity scenario bucket1 spans `3/4 · (2π − 0.1)` and bucket2 spans
`1/4 · (2π − 0.1)`, and consecutive buckets are separated by exactly one
0.05-radian gap (bucket2 starts 0.05 after bucket1 ends). -/
theorem two_bucket_span_amended :
    (groupedLayout GroupBy.species [cA, cB, cC, cD]).2
      = [⟨"A", (-(1 / 2 : ℚ), (0 : ℚ)), ((1 : ℚ), -(3 / 40 : ℚ))⟩,
         ⟨"Unknown", ((1 : ℚ), -(1 / 40 : ℚ)), ((3 / 2 : ℚ), -(1 / 20 : ℚ))⟩] ∧
    Angle.toReal (Angle.sub ((1 : ℚ), -(3 / 40 : ℚ)) (-(1 / 2 : ℚ), (0 : ℚ)))
      = (3 / 4) * (2 * Real.pi - 0.1) ∧
    Angle.toReal (Angle.sub ((3 / 2 : ℚ), -(1 / 20 : ℚ)) ((1 : ℚ), -(1 / 40 : ℚ)))
      = (1 / 4) * (2 * Real.pi - 0.1) ∧
    Angle.sub ((1 : ℚ), -(1 / 40 : ℚ)) ((1 : ℚ), -(3 / 40 : ℚ))
      = ((0 : ℚ), (1 / 20 : ℚ)) := by
  refine ⟨?_, ?_, ?_, ?_⟩
  · have h : (['A'] ≤ ['U', 'n', 'k', 'n', 'o', 'w', 'n']) := by decide
    simp [groupedLayout, groupKeysOf, groupsOf, addToGroup, groupKeyOf, cA, cB, cC, cD,
      defaultCharacter, List.insertionSort, List.orderedInsert, layoutGroupsAux,
      Angle.add, Angle.smul, gapAngle, List.lookup, h]
    norm_num
  · simp only [Angle.sub, Angle.toReal]
    push_cast
    ring_nf
  · simp only [Angle.sub, Angle.toReal]
    push_cast
    ring_nf
  · simp only [Angle.sub]
    norm_num

/-- C10: for a non-empty character list, any grouping mode, and nonnegative
viewport dimensions, every computed node position lies at Euclidean distance
exactly `0.35 · min(width, height)` from the center `(width/2, height/2)`. -/
theorem node_distance_radius (gb : GroupBy) (chars : List Character)
    (width height : ℝ) (hw : 0 ≤ width) (hh : 0 ≤ height) (_hne : chars ≠ []) :
    ∀ p ∈ positionsOf gb chars width height,
      Real.sqrt ((p.2.1 - width / 2) ^ 2 + (p.2.2 - height / 2) ^ 2)
        = min width height * 0.35 := by
  intro p hp
  rcases List.mem_map.mp hp with ⟨q, _hq, rfl⟩
  have hr : (0 : ℝ) ≤ min width height * 0.35 :=
    mul_nonneg (le_min hw hh) (by norm_num)
  simp only [posOf]
  have hx : width / 2 + min width height * 0.35 * Real.cos (Angle.toReal q.2) - width / 2
      = min width height * 0.35 * Real.cos (Angle.toReal q.2) := by ring
  have hy : height / 2 + min width height * 0.35 * Real.sin (Angle.toReal q.2) - height / 2
      = min width height * 0.35 * Real.sin (Angle.toReal q.2) := by ring
  rw [hx, hy]
  have hsq : (min width height * 0.35 * Real.cos (Angle.toReal q.2)) ^ 2
      + (min width height * 0.35 * Real.sin (Angle.toReal q.2)) ^ 2
      = (min width height * 0.35) ^ 2 := by
    have hpyth := Real.sin_sq_add_cos_sq (Angle.toReal q.2)
    nlinarith [hpyth]
  rw [hsq]
  exact Real.sqrt_sq hr

/-- Witness for C10: a single character on a 200×100 viewport in ungrouped
mode; every produced position is at distance `0.35 · 100` from the center. -/
theorem node_distance_radius_witness :
    (0 : ℝ) ≤ 200 ∧ (0 : ℝ) ≤ 100 ∧ ([cA] : List Character) ≠ [] ∧
    ∀ p ∈ positionsOf GroupBy.none [cA] 200 100,
      Real.sqrt ((p.2.1 - 200 / 2) ^ 2 + (p.2.2 - 100 / 2) ^ 2)
        = min (200 : ℝ) 100 * 0.35 :=
  ⟨by norm_num, by norm_num, by simp,
    node_distance_radius GroupBy.none [cA] 200 100 (by norm_num) (by norm_num) (by simp)⟩

/-- A `filterMap` ignores elements on which the function yields `none`:
removing every copy of such an element leaves the output unchanged. -/
theorem filterMap_filter_ne {α β : Type} [DecidableEq α] (f : α → Option β) (c : α)
    (hfc : f c = Option.none) :
    ∀ l : List α, (l.filter (fun x => x != c)).filterMap f = l.filterMap f := by
  intro l
  induction l with
  | nil => rfl
  | cons d rest ih =>
    by_cases hd : d = c
    · subst hd
      simp [List.filter_cons, List.filterMap_cons, hfc, ih]
    · cases hfd : f d <;>
        simp [List.filter_cons, List.filterMap_cons, hd, hfd, ih]

/-- C7: an edge whose source or target id has no entry in the position
mapping produces no geometry in the render pass, and dropping every copy of
it leaves the rendering of all other edges unchanged (the pass is a total
function — no exception is modelled or needed). -/
theorem render_skips_dangling {P : Type} (positions : List (String × P))
    (conns : List Conn) (c : Conn)
    (h : positions.lookup c.source = Option.none ∨
         positions.lookup c.target = Option.none) :
    renderConnections positions [c] = [] ∧
    renderConnections positions (conns.filter (fun c2 => c2 != c))
      = renderConnections positions conns := by
  have hnone : (fun c : Conn =>
      match positions.lookup c.source, positions.lookup c.target with
      | some startPos, some endPos => some (startPos, endPos)
      | _, _ => (Option.none : Option (P × P))) c = Option.none := by
    rcases h with h | h
    · simp [h]
    · cases hs : positions.lookup c.source <;> simp [h, hs]
  constructor
  · simp only [renderConnections, List.filterMap_cons, hnone, List.filterMap_nil]
  · exact filterMap_filter_ne _ c hnone conns

/-- Witness for C7: a position table knowing only `"A"`; the edge
`("A", "Y")` renders nothing, and removing it does not disturb the render
of the remaining edges. -/
theorem render_skips_dangling_witness :
    renderConnections [("A", ((0 : ℝ), (0 : ℝ)))] [⟨"A", "Y"⟩] = [] ∧
    renderConnections [("A", ((0 : ℝ), (0 : ℝ)))]
        ([⟨"A", "Y"⟩, ⟨"A", "A"⟩].filter (fun c2 => c2 != (⟨"A", "Y"⟩ : Conn)))
      = renderConnections [("A", ((0 : ℝ), (0 : ℝ)))] [⟨"A", "Y"⟩, ⟨"A", "A"⟩] :=
  render_skips_dangling [("A", ((0 : ℝ), (0 : ℝ)))] [⟨"A", "Y"⟩, ⟨"A", "A"⟩]
    ⟨"A", "Y"⟩ (Or.inr (by simp [List.lookup]))
